import Mathlib

/-!
# Calendar widget (`script.js`): grid construction and the date-keyed event store

A shallow embedding of `script.js`.

* JavaScript numbers that occur here are integers or `NaN`; a number is an `Option Int`
  with `none` standing for `NaN`.
* `Date` is modelled after the ECMAScript definitions (`DayFromYear`, `MakeDay`,
  `YearFromTime`, `MonthFromTime`, `DateFromTime`, `WeekDay`, `TimeClip`) on day numbers
  counted from 1970-01-01 and time values in milliseconds.  The time zone of the browser
  is a parameter: the pair of conversions `UTC(t)` and `LocalTime(t)`.
* `localStorage` holds one entry; its content is classified by what `JSON.parse` makes of it.
-/

namespace Calendar

/-! ## ECMAScript date arithmetic -/

/-- Day number of the first day of year `y` (ECMAScript `DayFromYear`). -/
def DayFromYear (y : Int) : Int :=
  365 * (y - 1970) + (y - 1969) / 4 - (y - 1901) / 100 + (y - 1601) / 400

/-- Number of days of year `y` (ECMAScript `DaysInYear`). -/
def DaysInYear (y : Int) : Int :=
  if y % 4 ≠ 0 then 365 else if y % 100 ≠ 0 then 366 else if y % 400 ≠ 0 then 365 else 366

/-- ECMAScript `InLeapYear`, as 0 or 1. -/
def InLeapYear (y : Int) : Int :=
  if DaysInYear y = 366 then 1 else 0

/-- The largest year whose first day is not after day `d` (ECMAScript `YearFromTime`):
an estimate from the mean year length, corrected by at most one year. -/
def YearFromDay (d : Int) : Int :=
  let y := 1970 + (400 * d) / 146097
  if d < DayFromYear y then y - 1
  else if DayFromYear (y + 1) ≤ d then y + 1
  else y

/-- Day within its year, from 0 (ECMAScript `DayWithinYear`). -/
def DayWithinYear (d : Int) : Int :=
  d - DayFromYear (YearFromDay d)

/-- Offset of the first day of month `m` (0 = January) within a year; `leap` is 0 or 1. -/
def monthStart (m : Int) (leap : Int) : Int :=
  if m = 0 then 0
  else if m = 1 then 31
  else if m = 2 then 59 + leap
  else if m = 3 then 90 + leap
  else if m = 4 then 120 + leap
  else if m = 5 then 151 + leap
  else if m = 6 then 181 + leap
  else if m = 7 then 212 + leap
  else if m = 8 then 243 + leap
  else if m = 9 then 273 + leap
  else if m = 10 then 304 + leap
  else 334 + leap

/-- Month (0 = January) of day `d` (ECMAScript `MonthFromTime`). -/
def MonthFromDay (d : Int) : Int :=
  let w := DayWithinYear d
  let leap := InLeapYear (YearFromDay d)
  if w < 31 then 0
  else if w < 59 + leap then 1
  else if w < 90 + leap then 2
  else if w < 120 + leap then 3
  else if w < 151 + leap then 4
  else if w < 181 + leap then 5
  else if w < 212 + leap then 6
  else if w < 243 + leap then 7
  else if w < 273 + leap then 8
  else if w < 304 + leap then 9
  else if w < 334 + leap then 10
  else 11

/-- Day of the month, from 1, of day `d` (ECMAScript `DateFromTime`). -/
def DateFromDay (d : Int) : Int :=
  DayWithinYear d - monthStart (MonthFromDay d) (InLeapYear (YearFromDay d)) + 1

/-- Day of the week of day `d`, 0 = Sunday (ECMAScript `WeekDay`). -/
def WeekDay (d : Int) : Int :=
  (d + 4) % 7

/-- Day number of `(year, month, date)`; months outside 0..11 carry into the year and
dates outside the month carry into the neighbouring months (ECMAScript `MakeDay`). -/
def MakeDay (year month date : Int) : Int :=
  let ym := year + month / 12
  let mn := month % 12
  DayFromYear ym + monthStart mn (InLeapYear ym) + date - 1

/-- Milliseconds of a day (ECMAScript `msPerDay`). -/
def msPerDay : Int := 86400000

/-- Day number of a time value (ECMAScript `Day`). -/
def Day (t : Int) : Int := t / msPerDay

/-- The time zone of the browser: `toUTC` takes a local time value to the time value of
that instant (ECMAScript `UTC(t)`), `toLocal` takes a time value to the local time value
(ECMAScript `LocalTime(t)`).  A local time that the zone skips is read with the offset
before the skip, so `toLocal (toUTC t)` is later than `t` there. -/
structure Zone where
  toUTC : Int → Int
  toLocal : Int → Int

/-- The zone of UTC itself. -/
def Zone.utc : Zone :=
  { toUTC := fun t => t, toLocal := fun t => t }

/-- A zone that is ten hours behind UTC until the end of 30 December 1994 and fourteen
hours ahead from then on, as Pacific/Kiritimati is: 31 December 1994 does not exist
there. -/
def Zone.skipsLastDayOf1994 : Zone :=
  { toUTC := fun t =>
      if t < MakeDay 1995 0 1 * msPerDay then t + 36000000 else t - 50400000
    toLocal := fun t =>
      if t < MakeDay 1994 11 31 * msPerDay + 36000000 then t - 36000000 else t + 50400000 }

/-- A time value further than 8.64e15 milliseconds (100,000,000 days) from the epoch is
`NaN` (ECMAScript `TimeClip`). -/
def TimeClip (t : Int) : Option Int :=
  if -8640000000000000 ≤ t ∧ t ≤ 8640000000000000 then some t else none

/-- The constructor call `new Date(year, month, date)`: a year from 0 to 99 stands for
1900 + year, the date is the local midnight of that day; the result is the time value, or
`none` for an invalid date. -/
def newDate (zone : Zone) (year month date : Int) : Option Int :=
  let yr := if 0 ≤ year ∧ year ≤ 99 then 1900 + year else year
  TimeClip (zone.toUTC (MakeDay yr month date * msPerDay))

/-- The method `Date.prototype.getDay`. -/
def getDay (zone : Zone) (t : Option Int) : Option Int :=
  t.map fun tv => WeekDay (Day (zone.toLocal tv))

/-- The method `Date.prototype.getDate`. -/
def getDate (zone : Zone) (t : Option Int) : Option Int :=
  t.map fun tv => DateFromDay (Day (zone.toLocal tv))

/-! ## Strings -/

/-- The conversion `String(n)` of a number that is an integer or `NaN`. -/
def numToString (n : Option Int) : String :=
  match n with
  | some k => toString k
  | none => "NaN"

/-- The method `String.prototype.padStart(n, c)` for a one-character filler. -/
def padStart (s : String) (n : Nat) (c : Char) : String :=
  String.mk (List.replicate (n - s.length) c) ++ s

/-- The function `formatDateObj(y, m, d)` of the script; the year is an integer that
JavaScript prints in plain decimal digits (below 10^21 in absolute value). -/
def formatDateObj (y : Int) (m : Int) (d : Option Int) : String :=
  let mm := padStart (numToString (some (m + 1))) 2 '0'
  let dd := padStart (numToString d) 2 '0'
  toString y ++ "-" ++ mm ++ "-" ++ dd

/-! ## Event records and the stored value -/

/-- One stored event; `time` may be missing from a persisted record. -/
structure EventRecord where
  title : String
  time : Option String
  notes : String
  createdAt : String
  deriving DecidableEq, Repr

/-- The events object: own properties in insertion order, each a date key with its array. -/
abbrev EventStore := List (String × List EventRecord)

/-- A value returned by `JSON.parse`, by the kind of its top level.  An object is read as
an events object, an array is kept by its length. -/
inductive JsValue where
  | null
  | boolean (b : Bool)
  | number (n : Int)
  | string (s : String)
  | array (length : Nat)
  | object (props : EventStore)
  deriving DecidableEq, Repr

/-- Whether a value is a mapping (a non-array object). -/
def JsValue.isMapping : JsValue → Bool
  | .object _ => true
  | _ => false

/-- The content of the storage entry `simple_calendar_events_v1`, by what `getItem` and
`JSON.parse` make of it. -/
inductive StorageEntry where
  | absent
  | unparsable (raw : String)
  | parsed (value : JsValue)
  deriving DecidableEq, Repr

/-- The function `loadEvents()`: `{}` for a missing or empty entry and for a text that
`JSON.parse` rejects, otherwise whatever `JSON.parse` returns. -/
def loadEvents (entry : StorageEntry) : JsValue :=
  match entry with
  | .absent => .object []
  | .unparsable _ => .object []
  | .parsed v => v

/-- The function `saveEvents(events)`: the entry now holds the serialised object. -/
def saveEvents (events : EventStore) : StorageEntry :=
  .parsed (.object events)

/-- The expression `(events && events[dateKey]) || []` of `createDateCell`. -/
def dayEventsOf (events : JsValue) (dateKey : String) : List EventRecord :=
  match events with
  | .object props => (props.lookup dateKey).getD []
  | _ => []

/-! ## The grid -/

/-- The clock reading `now` taken once when the script starts. -/
structure Clock where
  fullYear : Int
  month : Int
  date : Int
  deriving DecidableEq, Repr

/-- What `createDateCell` puts into one cell of the grid. -/
structure DateCell where
  day : Option Int
  otherMonth : Bool
  dateKey : String
  today : Bool
  selected : Bool
  preview : Option String
  deriving DecidableEq, Repr

/-- The function `createDateCell(year, month, day, otherMonth, events)`. -/
def createDateCell (now : Clock) (selectedDate : Option String) (year month : Int)
    (day : Option Int) (otherMonth : Bool) (events : JsValue) : DateCell :=
  let dateKey := formatDateObj year month day
  let todayKey := formatDateObj now.fullYear now.month (some now.date)
  let dayEvents := dayEventsOf events dateKey
  { day := day
    otherMonth := otherMonth
    dateKey := dateKey
    today := decide (dateKey = todayKey)
    selected := decide (selectedDate = some dateKey)
    preview :=
      match dayEvents with
      | [] => none
      | ev :: _ => some (if ev.title = "" then "(event)" else ev.title) }

/-- The cells of the first loop of `renderCalendar`: `i` runs from `firstDay - 1` down
to 0 and the cell shows `prevDays - i`. -/
def leadingCells (now : Clock) (selectedDate : Option String) (year month : Int)
    (firstDay prevDays : Option Int) (events : JsValue) : List DateCell :=
  match firstDay with
  | none => []
  | some fw =>
    (List.range fw.toNat).reverse.map fun (i : Nat) =>
      createDateCell now selectedDate year (month - 1)
        (prevDays.map fun p => p - (i : Int)) true events

/-- The cells of the second loop of `renderCalendar`: `d` runs from 1 to `daysInMonth`. -/
def monthCells (now : Clock) (selectedDate : Option String) (year month : Int)
    (daysInMonth : Option Int) (events : JsValue) : List DateCell :=
  match daysInMonth with
  | none => []
  | some n =>
    (List.range n.toNat).map fun (j : Nat) =>
      createDateCell now selectedDate year month (some ((j : Int) + 1)) false events

/-- The cells of the third loop of `renderCalendar`: `k` runs from 1 to `needed`. -/
def trailingCells (now : Clock) (selectedDate : Option String) (year month : Int)
    (totalCells : Nat) (events : JsValue) : List DateCell :=
  let needed := if totalCells % 7 = 0 then 0 else 7 - totalCells % 7
  (List.range needed).map fun (j : Nat) =>
    createDateCell now selectedDate year (month + 1) (some ((j : Int) + 1)) true events

/-- The function `renderCalendar(year, month)`: the children of `datesGrid` after the call. -/
def renderCalendar (zone : Zone) (now : Clock) (selectedDate : Option String)
    (entry : StorageEntry) (year month : Int) : List DateCell :=
  let firstDay := getDay zone (newDate zone year month 1)
  let daysInMonth := getDate zone (newDate zone year (month + 1) 0)
  let prevDays := getDate zone (newDate zone year month 0)
  let events := loadEvents entry
  let grid := leadingCells now selectedDate year month firstDay prevDays events
    ++ monthCells now selectedDate year month daysInMonth events
  grid ++ trailingCells now selectedDate year month grid.length events

/-! ## The event list and the mutations of the store -/

/-- White space as `String.prototype.trim` understands it (white space and line ends). -/
def isJsWhiteSpace (c : Char) : Bool :=
  let n := c.toNat
  n = 9 || n = 10 || n = 11 || n = 12 || n = 13 || n = 32 || n = 160 || n = 5760
    || (8192 ≤ n && n ≤ 8202) || n = 8232 || n = 8233 || n = 8239 || n = 8287
    || n = 12288 || n = 65279

/-- The method `String.prototype.trim`. -/
def jsTrim (s : String) : String :=
  String.mk ((s.toList.dropWhile isJsWhiteSpace).reverse.dropWhile isJsWhiteSpace).reverse

/-- Lexicographic comparison of two character sequences: negative, zero or positive as
the first comes before, with or after the second. -/
def compareChars : List Char → List Char → Int
  | [], [] => 0
  | [], _ :: _ => -1
  | _ :: _, [] => 1
  | a :: as, b :: bs =>
    if a.toNat < b.toNat then -1
    else if b.toNat < a.toNat then 1
    else compareChars as bs

/-- Modelled from the spec: `String.prototype.localeCompare` belongs to the host and is
not part of the script; the spec describes the comparison as lexicographic string
comparison. -/
def localeCompare (a b : String) : Int :=
  compareChars a.toList b.toList

/-- The expression `ev.time || ""`. -/
def timeOrEmpty (ev : EventRecord) : String :=
  ev.time.getD ""

/-- The comparator `(a,b) => (a.time || "").localeCompare(b.time || "")` does not put
`a` after `b`. -/
def timeNotAfter (a b : EventRecord) : Prop :=
  localeCompare (timeOrEmpty a) (timeOrEmpty b) ≤ 0

instance : DecidableRel timeNotAfter :=
  fun a b => inferInstanceAs (Decidable (localeCompare (timeOrEmpty a) (timeOrEmpty b) ≤ 0))

/-- The call `arr.slice().sort(cmp)`: `Array.prototype.sort` is a stable sort, so the
copy is the stable arrangement of `arr` by the comparator. -/
def sortByTime (arr : List EventRecord) : List EventRecord :=
  arr.insertionSort timeNotAfter

/-- One row of the event list: the event shown and the index its Delete button hands to
`deleteEvent`. -/
structure EventRow where
  event : EventRecord
  deleteIndex : Nat
  deriving DecidableEq, Repr

/-- The rows `dayEvents.forEach((ev,i) => ...)` creates. -/
def rowsOf (dayEvents : List EventRecord) : List EventRow :=
  dayEvents.enum.map fun p => { event := p.2, deleteIndex := p.1 }

/-- The function `renderEventList(dateKey)`: the rows shown (none for the line
"No events for this day.") together with the storage entry after the call; `none` when
the call throws because the loaded value is `null`.  Date keys are never names of
built-in properties, so a loaded value that is not an object has no entry for a key. -/
def renderEventList (entry : StorageEntry) (dateKey : String) :
    Option (List EventRow × StorageEntry) :=
  match loadEvents entry with
  | .null => none
  | .object props => some (rowsOf (sortByTime ((props.lookup dateKey).getD [])), entry)
  | _ => some ([], entry)

/-- The assignment `events[key] = value`: the property keeps its place, a new one goes
to the end. -/
def setProp (props : EventStore) (key : String) (value : List EventRecord) : EventStore :=
  match props with
  | [] => [(key, value)]
  | p :: rest => if p.1 = key then (key, value) :: rest else p :: setProp rest key value

/-- The statement `delete events[key]`. -/
def deleteProp (props : EventStore) (key : String) : EventStore :=
  props.filter fun p => p.1 ≠ key

/-- The call `arr.splice(idx, 1)`: a negative start counts from the end, the start is
clamped to the array, and at most one element is removed. -/
def splice1 (arr : List EventRecord) (idx : Int) : List EventRecord :=
  let len : Int := arr.length
  let start := if idx < 0 then max (len + idx) 0 else min idx len
  let deleteCount := min (max 1 0) (len - start)
  arr.take start.toNat ++ arr.drop (start + deleteCount).toNat

/-- The test `!selectedDate`. -/
def noDateSelected (selectedDate : Option String) : Bool :=
  match selectedDate with
  | none => true
  | some k => k = ""

/-- The submit handler of `eventForm`: the storage entry after the handler; `none` when
the handler throws. -/
def eventFormSubmit (entry : StorageEntry) (selectedDate : Option String)
    (titleValue timeValue notesValue isoNow : String) : Option StorageEntry :=
  match selectedDate with
  | none => some entry
  | some key =>
    if key = "" then some entry
    else
      let title := jsTrim titleValue
      if title = "" then some entry
      else
        let record : EventRecord :=
          { title := title, time := some timeValue, notes := jsTrim notesValue,
            createdAt := isoNow }
        match loadEvents entry with
        | .object props =>
          let props1 := if (props.lookup key).isNone then setProp props key [] else props
          let arr := (props1.lookup key).getD []
          some (saveEvents (setProp props1 key (arr ++ [record])))
        | .array n => some (.parsed (.array n))
        | _ => none

/-- The function `deleteEvent(dateKey, idx)`: the storage entry after the call; `none`
when the call throws. -/
def deleteEvent (entry : StorageEntry) (dateKey : String) (idx : Int) :
    Option StorageEntry :=
  match loadEvents entry with
  | .null => none
  | .object props =>
    match props.lookup dateKey with
    | none => some entry
    | some arr =>
      let arr1 := splice1 arr idx
      if arr1.length = 0 then some (saveEvents (deleteProp props dateKey))
      else some (saveEvents (setProp props dateKey arr1))
  | _ => some entry

/-- The click handler of `clearEvents`; `confirmed` is the answer to `confirm(...)`. -/
def clearEventsClick (entry : StorageEntry) (selectedDate : Option String)
    (confirmed : Bool) : Option StorageEntry :=
  if noDateSelected selectedDate then some entry
  else if !confirmed then some entry
  else
    match loadEvents entry with
    | .null => none
    | .object props => some (saveEvents (deleteProp props (selectedDate.getD "")))
    | v => some (.parsed v)

/-! ## The view state and its handlers -/

/-- The module variables `currentYear`, `currentMonth`, `selectedDate` and whether
`eventPanel` carries the class `hidden`. -/
structure ViewState where
  currentYear : Int
  currentMonth : Int
  selectedDate : Option String
  panelHidden : Bool
  deriving DecidableEq, Repr

/-- The view when the script has run: the month of `now`, nothing selected. -/
def initialView (now : Clock) (panelHidden : Bool) : ViewState :=
  { currentYear := now.fullYear, currentMonth := now.month, selectedDate := none,
    panelHidden := panelHidden }

/-- The click handler of `prevBtn`. -/
def prevBtnClick (v : ViewState) : ViewState :=
  let m := v.currentMonth - 1
  if m < 0 then { v with currentMonth := 11, currentYear := v.currentYear - 1 }
  else { v with currentMonth := m }

/-- The click handler of `nextBtn`. -/
def nextBtnClick (v : ViewState) : ViewState :=
  let m := v.currentMonth + 1
  if m > 11 then { v with currentMonth := 0, currentYear := v.currentYear + 1 }
  else { v with currentMonth := m }

/-- The click handler of `goBtn`; `y` and `m` are the results of `parseInt`. -/
def goBtnClick (v : ViewState) (y m : Option Int) : ViewState :=
  match y, m with
  | some yy, some mm => { v with currentYear := yy, currentMonth := mm }
  | _, _ => v

/-- The click handler of `todayBtn`. -/
def todayBtnClick (now : Clock) (v : ViewState) : ViewState :=
  { v with currentYear := now.fullYear, currentMonth := now.month }

/-- The click handler of a date cell. -/
def dateCellClick (v : ViewState) (cell : DateCell) : ViewState :=
  { v with selectedDate := some cell.dateKey, panelHidden := false }

/-- The click handler of `closePanel`. -/
def closePanelClick (v : ViewState) : ViewState :=
  { v with selectedDate := none, panelHidden := true }

/-- The click handler of `toggleEvents`. -/
def toggleEventsClick (now : Clock) (v : ViewState) : ViewState :=
  if v.panelHidden then
    if noDateSelected v.selectedDate then
      { v with
        selectedDate := some (formatDateObj v.currentYear v.currentMonth (some now.date))
        panelHidden := false }
    else { v with panelHidden := false }
  else { v with panelHidden := true }

/-- The key `todayKey` of `createDateCell`. -/
def todayKey (now : Clock) : String :=
  formatDateObj now.fullYear now.month (some now.date)

/-! ## Calendar reference definitions -/

/-- Length of month `m` (0 = January) of year `y` in the Gregorian calendar. -/
def monthLength (y m : Int) : Int :=
  if m = 1 then 28 + InLeapYear y
  else if m = 3 ∨ m = 5 ∨ m = 8 ∨ m = 10 then 30
  else 31

/-- Length of the month before month `m` of year `y`. -/
def prevMonthLength (y m : Int) : Int :=
  if m = 0 then monthLength (y - 1) 11 else monthLength y (m - 1)

/-- The year a `Date` built from `year` lies in: 1900 + year for a year from 0 to 99. -/
def resolvedYear (year : Int) : Int :=
  if 0 ≤ year ∧ year ≤ 99 then 1900 + year else year

/-- The years for which every `Date` that `renderCalendar` builds is valid. -/
def yearInRange (year : Int) : Prop :=
  -271820 ≤ year ∧ year ≤ 275759

/-- The zone keeps day `d`: the local midnight of day `d` is an instant at most a day from
the same reading of the UTC clock, and in local time that instant falls on day `d`. -/
def Zone.keepsDay (zone : Zone) (d : Int) : Prop :=
  (-msPerDay ≤ zone.toUTC (d * msPerDay) - d * msPerDay
      ∧ zone.toUTC (d * msPerDay) - d * msPerDay ≤ msPerDay)
    ∧ Day (zone.toLocal (zone.toUTC (d * msPerDay))) = d

/-- The zone keeps the three days whose `Date` the function `renderCalendar(year, month)`
builds: the 1st of the month, the last day of the month and the last day of the month
before. -/
def Zone.keepsMonth (zone : Zone) (year month : Int) : Prop :=
  zone.keepsDay (MakeDay (resolvedYear year) month 1)
    ∧ zone.keepsDay (MakeDay (resolvedYear year) (month + 1) 0)
    ∧ zone.keepsDay (MakeDay (resolvedYear year) month 0)

/-- What a cell shows: the other-month flag and the day number. -/
def cellShape (c : DateCell) : Bool × Option Int := (c.otherMonth, c.day)

/-- The `n` consecutive day numbers from `start` on, ascending. -/
def consecutiveDays (start : Int) (n : Nat) : List Int :=
  (List.range n).map fun (j : Nat) => start + (j : Int)

/-- Cells with the given other-month flag showing the given day numbers. -/
def shapesOf (otherMonth : Bool) (days : List Int) : List (Bool × Option Int) :=
  days.map fun d => (otherMonth, some d)

/-! ## The invariant of the store -/

/-- No property of the events object holds an empty array. -/
def NoEmptyKey (props : EventStore) : Prop :=
  ∀ p ∈ props, p.2 ≠ []

/-- The storage entries that the three mutations produce from a store without events. -/
inductive Reachable : StorageEntry → Prop where
  | absent : Reachable .absent
  | empty : Reachable (saveEvents [])
  | submit (e e1 : StorageEntry) (sel : Option String) (t tm n iso : String) :
      Reachable e → eventFormSubmit e sel t tm n iso = some e1 → Reachable e1
  | delete (e e1 : StorageEntry) (k : String) (idx : Int) :
      Reachable e → deleteEvent e k idx = some e1 → Reachable e1
  | clear (e e1 : StorageEntry) (sel : Option String) (c : Bool) :
      Reachable e → clearEventsClick e sel c = some e1 → Reachable e1

/-- The record the submit handler builds from the form fields. -/
def newRecord (titleValue timeValue notesValue isoNow : String) : EventRecord :=
  { title := jsTrim titleValue, time := some timeValue, notes := jsTrim notesValue,
    createdAt := isoNow }

/-! ## Reference definition for trimming -/

/-- The string `t` is the string `s` without its leading and trailing white space: `s` is
`t` between two runs of white space, and `t` neither starts nor ends with white space. -/
def TrimmedOf (s t : String) : Prop :=
  ∃ pre post : List Char, s.toList = pre ++ t.toList ++ post
    ∧ (∀ c ∈ pre, isJsWhiteSpace c = true)
    ∧ (∀ c ∈ post, isJsWhiteSpace c = true)
    ∧ (∀ c, t.toList.head? = some c → isJsWhiteSpace c = false)
    ∧ (∀ c, t.toList.getLast? = some c → isJsWhiteSpace c = false)

/-! ## Reference definitions for the grid -/

/-- The grid of month `month` of calendar year `y` as the spec describes it: the last
days of the month before, as many as the weekday of the 1st, then the days of the month,
then days of the next month from 1 up to a full week. -/
def gridShape (y month : Int) : List (Bool × Option Int) :=
  let firstWeekday := WeekDay (MakeDay y month 1)
  let daysInMonth := monthLength y month
  let daysInPrevMonth := prevMonthLength y month
  shapesOf true (consecutiveDays (daysInPrevMonth - firstWeekday + 1) firstWeekday.toNat)
    ++ shapesOf false (consecutiveDays 1 daysInMonth.toNat)
    ++ shapesOf true (consecutiveDays 1 ((7 - (firstWeekday + daysInMonth) % 7) % 7).toNat)

/-- The canonical key of the calendar day that `(year, month, day)` denotes, with a month
outside 0..11 carried into the year. -/
def canonicalKey (year month day : Int) : String :=
  let n := MakeDay year month day
  formatDateObj (YearFromDay n) (MonthFromDay n) (some (DateFromDay n))

/-! ## Lemmas on the date arithmetic -/

theorem DayFromYear_succ (y : Int) : DayFromYear (y + 1) = DayFromYear y + DaysInYear y := by
  unfold DayFromYear DaysInYear
  split_ifs <;> omega

theorem DayFromYear_pred (y : Int) : DayFromYear (y - 1) = DayFromYear y - DaysInYear (y - 1) := by
  have h := DayFromYear_succ (y - 1)
  rw [Int.sub_add_cancel] at h
  omega

theorem DayFromYear_est_lo (d a : Int) (h1 : 146097 * a ≤ 400 * d) :
    DayFromYear (1970 + a - 1) ≤ d := by
  unfold DayFromYear
  omega

theorem DayFromYear_est_hi (d a : Int) (h2 : 400 * d < 146097 * a + 146097) :
    d < DayFromYear (1970 + a + 2) := by
  unfold DayFromYear
  omega

theorem YearFromDay_spec (d : Int) :
    DayFromYear (YearFromDay d) ≤ d ∧ d < DayFromYear (YearFromDay d + 1) := by
  have h1 : 146097 * ((400 * d) / 146097) ≤ 400 * d := by omega
  have h2 : 400 * d < 146097 * ((400 * d) / 146097) + 146097 := by omega
  have lo := DayFromYear_est_lo d _ h1
  have hi := DayFromYear_est_hi d _ h2
  unfold YearFromDay
  simp only
  generalize 1970 + (400 * d) / 146097 = y at lo hi ⊢
  have e1 : y - 1 + 1 = y := by ring
  have e2 : y + 1 + 1 = y + 2 := by ring
  split_ifs with ha hb
  · rw [e1]; exact ⟨lo, ha⟩
  · rw [e2]; exact ⟨hb, hi⟩
  · exact ⟨not_lt.mp ha, not_le.mp hb⟩

theorem DayFromYear_mono (a b : Int) (h : a ≤ b) : DayFromYear a ≤ DayFromYear b := by
  unfold DayFromYear
  omega

theorem YearFromDay_unique (d y : Int) (h1 : DayFromYear y ≤ d) (h2 : d < DayFromYear (y + 1)) :
    YearFromDay d = y := by
  obtain ⟨s1, s2⟩ := YearFromDay_spec d
  by_contra hne
  rcases lt_or_gt_of_ne hne with h | h
  · have := DayFromYear_mono (YearFromDay d + 1) y (by omega)
    omega
  · have := DayFromYear_mono (y + 1) (YearFromDay d) (by omega)
    omega

theorem InLeapYear_cases (y : Int) :
    (InLeapYear y = 0 ∧ DaysInYear y = 365) ∨ (InLeapYear y = 1 ∧ DaysInYear y = 366) := by
  unfold InLeapYear DaysInYear
  split_ifs <;> simp_all

theorem MakeDay_month (y m dd : Int) (hm : 0 ≤ m ∧ m ≤ 11) :
    MakeDay y m dd = DayFromYear y + monthStart m (InLeapYear y) + dd - 1 := by
  unfold MakeDay
  have h1 : m / 12 = 0 := by omega
  have h2 : m % 12 = m := by omega
  simp [h1, h2]

/-- Reading back a day of a month: year, month and date of `MakeDay y m dd`. -/
theorem fromDay_MakeDay (y m dd : Int) (hm : 0 ≤ m ∧ m ≤ 11)
    (hd : 1 ≤ dd ∧ dd ≤ monthLength y m) :
    YearFromDay (MakeDay y m dd) = y ∧ MonthFromDay (MakeDay y m dd) = m
      ∧ DateFromDay (MakeDay y m dd) = dd := by
  rw [MakeDay_month y m dd hm]
  obtain ⟨hm0, hm11⟩ := hm
  have hY : YearFromDay (DayFromYear y + monthStart m (InLeapYear y) + dd - 1) = y := by
    apply YearFromDay_unique
    · rcases InLeapYear_cases y with ⟨hl, _⟩ | ⟨hl, _⟩ <;>
        interval_cases m <;> simp [monthStart, monthLength, hl] at hd ⊢ <;> omega
    · rw [DayFromYear_succ]
      rcases InLeapYear_cases y with ⟨hl, hn⟩ | ⟨hl, hn⟩ <;>
        interval_cases m <;> simp [monthStart, monthLength, hl, hn] at hd ⊢ <;> omega
  have hM : MonthFromDay (DayFromYear y + monthStart m (InLeapYear y) + dd - 1) = m := by
    unfold MonthFromDay DayWithinYear
    rw [hY]
    rcases InLeapYear_cases y with ⟨hl, _⟩ | ⟨hl, _⟩ <;>
      interval_cases m <;> simp [monthStart, monthLength, hl] at hd ⊢ <;> omega
  refine ⟨hY, hM, ?_⟩
  unfold DateFromDay DayWithinYear
  rw [hM, hY]
  omega

theorem monthLength_bounds (y m : Int) : 28 ≤ monthLength y m ∧ monthLength y m ≤ 31 := by
  unfold monthLength
  rcases InLeapYear_cases y with ⟨hl, _⟩ | ⟨hl, _⟩ <;> split_ifs <;> omega

theorem prevMonthLength_bounds (y m : Int) :
    28 ≤ prevMonthLength y m ∧ prevMonthLength y m ≤ 31 := by
  unfold prevMonthLength
  split_ifs
  · exact monthLength_bounds _ _
  · exact monthLength_bounds _ _

/-- Day 0 of the next month is the last day of this month. -/
theorem MakeDay_next_zero (y m : Int) (hm : 0 ≤ m ∧ m ≤ 11) :
    MakeDay y (m + 1) 0 = MakeDay y m (monthLength y m) := by
  rw [MakeDay_month y m _ hm]
  obtain ⟨hm0, hm11⟩ := hm
  rcases eq_or_lt_of_le hm11 with h11 | hlt
  · subst h11
    have e : MakeDay y (11 + 1) 0 = DayFromYear (y + 1) + 0 + 0 - 1 := by
      unfold MakeDay
      simp [monthStart]
    rw [e, DayFromYear_succ]
    rcases InLeapYear_cases y with ⟨hl, hn⟩ | ⟨hl, hn⟩ <;>
      simp [monthStart, monthLength, hl, hn] <;> omega
  · rw [MakeDay_month y (m + 1) 0 ⟨by omega, by omega⟩]
    rcases InLeapYear_cases y with ⟨hl, hn⟩ | ⟨hl, hn⟩ <;>
      interval_cases m <;> simp [monthStart, monthLength, hl] <;> omega

/-- Day 0 of a month is the last day of the month before, across the year boundary. -/
theorem MakeDay_zero (y m : Int) (hm : 0 ≤ m ∧ m ≤ 11) :
    MakeDay y m 0 =
      if m = 0 then MakeDay (y - 1) 11 (prevMonthLength y m)
      else MakeDay y (m - 1) (prevMonthLength y m) := by
  obtain ⟨hm0, hm11⟩ := hm
  split_ifs with h0
  · subst h0
    have h := MakeDay_next_zero (y - 1) 11 ⟨by omega, by omega⟩
    have e : MakeDay (y - 1) (11 + 1) 0 = MakeDay y 0 0 := by
      unfold MakeDay
      simp
    rw [e] at h
    rw [h]
    simp [prevMonthLength]
  · have h := MakeDay_next_zero y (m - 1) ⟨by omega, by omega⟩
    rw [Int.sub_add_cancel] at h
    rw [h]
    simp [prevMonthLength, h0]

theorem DateFromDay_next_zero (y m : Int) (hm : 0 ≤ m ∧ m ≤ 11) :
    DateFromDay (MakeDay y (m + 1) 0) = monthLength y m := by
  rw [MakeDay_next_zero y m hm]
  have hb := monthLength_bounds y m
  exact (fromDay_MakeDay y m _ hm ⟨by omega, le_refl _⟩).2.2

theorem DateFromDay_zero (y m : Int) (hm : 0 ≤ m ∧ m ≤ 11) :
    DateFromDay (MakeDay y m 0) = prevMonthLength y m := by
  rw [MakeDay_zero y m hm]
  have hb := prevMonthLength_bounds y m
  split_ifs with h0
  · have hp : prevMonthLength y m = monthLength (y - 1) 11 := by simp [prevMonthLength, h0]
    exact (fromDay_MakeDay (y - 1) 11 _ ⟨by omega, by omega⟩ ⟨by omega, by omega⟩).2.2
  · have hp : prevMonthLength y m = monthLength y (m - 1) := by simp [prevMonthLength, h0]
    exact (fromDay_MakeDay y (m - 1) _ ⟨by omega, by omega⟩ ⟨by omega, by omega⟩).2.2

theorem resolvedYear_range (year : Int) (hy : yearInRange year) :
    -271820 ≤ resolvedYear year ∧ resolvedYear year ≤ 275759 := by
  unfold yearInRange at hy
  unfold resolvedYear
  split_ifs <;> omega

theorem MakeDay_range (y m dd : Int) (hy : -271820 ≤ y ∧ y ≤ 275759) (hm : 0 ≤ m ∧ m ≤ 12)
    (hd : 0 ≤ dd ∧ dd ≤ 1) :
    -99999999 ≤ MakeDay y m dd ∧ MakeDay y m dd ≤ 99999999 := by
  obtain ⟨hm0, hm12⟩ := hm
  rcases eq_or_lt_of_le hm12 with h12 | hlt
  · subst h12
    have e : MakeDay y 12 dd = DayFromYear (y + 1) + dd - 1 := by
      unfold MakeDay
      simp [monthStart]
    rw [e]
    unfold DayFromYear
    omega
  · rw [MakeDay_month y m dd ⟨hm0, by omega⟩]
    have hs : 0 ≤ monthStart m (InLeapYear y) ∧ monthStart m (InLeapYear y) ≤ 335 := by
      rcases InLeapYear_cases y with ⟨hl, hn⟩ | ⟨hl, hn⟩ <;>
        interval_cases m <;> simp [monthStart, hl]
    unfold DayFromYear
    omega

/-- A `Date` in range whose day the zone keeps is valid and reads back as its day. -/
theorem newDate_eq (zone : Zone) (year m dd : Int) (hy : yearInRange year)
    (hm : 0 ≤ m ∧ m ≤ 12) (hd : 0 ≤ dd ∧ dd ≤ 1)
    (hz : zone.keepsDay (MakeDay (resolvedYear year) m dd)) :
    newDate zone year m dd
        = some (zone.toUTC (MakeDay (resolvedYear year) m dd * msPerDay))
      ∧ Day (zone.toLocal (zone.toUTC (MakeDay (resolvedYear year) m dd * msPerDay)))
        = MakeDay (resolvedYear year) m dd := by
  have hr := MakeDay_range (resolvedYear year) m dd (resolvedYear_range year hy) hm hd
  obtain ⟨⟨h1, h2⟩, h3⟩ := hz
  refine ⟨?_, h3⟩
  show TimeClip (zone.toUTC (MakeDay (resolvedYear year) m dd * msPerDay)) = _
  unfold TimeClip
  unfold msPerDay at h1 h2 ⊢
  rw [if_pos (by omega)]

theorem firstDay_eq (zone : Zone) (year month : Int) (hy : yearInRange year)
    (hm : 0 ≤ month ∧ month ≤ 11)
    (hz : zone.keepsDay (MakeDay (resolvedYear year) month 1)) :
    getDay zone (newDate zone year month 1)
      = some (WeekDay (MakeDay (resolvedYear year) month 1)) := by
  obtain ⟨e1, e2⟩ := newDate_eq zone year month 1 hy ⟨hm.1, by omega⟩ ⟨by omega, by omega⟩ hz
  rw [e1]
  simp only [getDay, Option.map, e2]

theorem daysInMonth_eq (zone : Zone) (year month : Int) (hy : yearInRange year)
    (hm : 0 ≤ month ∧ month ≤ 11)
    (hz : zone.keepsDay (MakeDay (resolvedYear year) (month + 1) 0)) :
    getDate zone (newDate zone year (month + 1) 0)
      = some (monthLength (resolvedYear year) month) := by
  obtain ⟨e1, e2⟩ :=
    newDate_eq zone year (month + 1) 0 hy ⟨by omega, by omega⟩ ⟨by omega, by omega⟩ hz
  rw [e1]
  simp only [getDate, Option.map, e2, DateFromDay_next_zero _ _ hm]

theorem prevDays_eq (zone : Zone) (year month : Int) (hy : yearInRange year)
    (hm : 0 ≤ month ∧ month ≤ 11)
    (hz : zone.keepsDay (MakeDay (resolvedYear year) month 0)) :
    getDate zone (newDate zone year month 0)
      = some (prevMonthLength (resolvedYear year) month) := by
  obtain ⟨e1, e2⟩ := newDate_eq zone year month 0 hy ⟨hm.1, by omega⟩ ⟨by omega, by omega⟩ hz
  rw [e1]
  simp only [getDate, Option.map, e2, DateFromDay_zero _ _ hm]

theorem WeekDay_bounds (d : Int) : 0 ≤ WeekDay d ∧ WeekDay d ≤ 6 := by
  unfold WeekDay
  omega

/-! ## Lemmas on the grid -/

theorem leadingCells_shape (now : Clock) (sel : Option String) (year month fw p : Int)
    (events : JsValue) :
    (leadingCells now sel year month (some fw) (some p) events).map cellShape
      = shapesOf true (consecutiveDays (p - fw + 1) fw.toNat) := by
  unfold leadingCells shapesOf consecutiveDays
  simp only [List.range_eq_range', List.reverse_range', List.map_map]
  apply List.map_congr_left
  intro j hj
  have hlt : j < fw.toNat := by
    simp only [List.mem_range'_1] at hj
    omega
  have hfw : ((fw.toNat : Nat) : Int) = fw := Int.toNat_of_nonneg (by omega)
  have hc : ((0 + fw.toNat - 1 - j : Nat) : Int) = fw - 1 - j := by omega
  simp only [Function.comp, cellShape, createDateCell, Option.map, hc]
  congr 2
  omega

theorem monthCells_shape (now : Clock) (sel : Option String) (year month n : Int)
    (events : JsValue) :
    (monthCells now sel year month (some n) events).map cellShape
      = shapesOf false (consecutiveDays 1 n.toNat) := by
  unfold monthCells shapesOf consecutiveDays
  simp only [List.map_map]
  apply List.map_congr_left
  intro j _
  simp only [Function.comp, cellShape, createDateCell]
  congr 2
  omega

theorem trailingCells_shape (now : Clock) (sel : Option String) (year month : Int)
    (total : Nat) (events : JsValue) :
    (trailingCells now sel year month total events).map cellShape
      = shapesOf true (consecutiveDays 1 ((7 - total % 7) % 7)) := by
  have hn : (if total % 7 = 0 then 0 else 7 - total % 7) = (7 - total % 7) % 7 := by
    split_ifs <;> omega
  unfold trailingCells shapesOf consecutiveDays
  simp only [List.map_map, hn]
  apply List.map_congr_left
  intro j _
  simp only [Function.comp, cellShape, createDateCell]
  congr 2
  omega

theorem leadingCells_length (now : Clock) (sel : Option String) (year month fw p : Int)
    (events : JsValue) :
    (leadingCells now sel year month (some fw) (some p) events).length = fw.toNat := by
  simp [leadingCells]

theorem monthCells_length (now : Clock) (sel : Option String) (year month n : Int)
    (events : JsValue) :
    (monthCells now sel year month (some n) events).length = n.toNat := by
  simp [monthCells]

/-- The grid of a month whose dates are all valid and kept by the zone, cell by cell. -/
theorem renderCalendar_shape (zone : Zone) (now : Clock) (sel : Option String)
    (entry : StorageEntry) (year month : Int) (hy : yearInRange year)
    (hm : 0 ≤ month ∧ month ≤ 11) (hz : zone.keepsMonth year month) :
    (renderCalendar zone now sel entry year month).map cellShape
      = shapesOf true (consecutiveDays
            (prevMonthLength (resolvedYear year) month
              - WeekDay (MakeDay (resolvedYear year) month 1) + 1)
            (WeekDay (MakeDay (resolvedYear year) month 1)).toNat)
        ++ shapesOf false (consecutiveDays 1 (monthLength (resolvedYear year) month).toNat)
        ++ shapesOf true (consecutiveDays 1
            ((7 - ((WeekDay (MakeDay (resolvedYear year) month 1)).toNat
                + (monthLength (resolvedYear year) month).toNat) % 7) % 7)) := by
  obtain ⟨hz1, hz2, hz3⟩ := hz
  unfold renderCalendar
  simp only [firstDay_eq zone year month hy hm hz1, daysInMonth_eq zone year month hy hm hz2,
    prevDays_eq zone year month hy hm hz3, List.map_append, leadingCells_shape,
    monthCells_shape, trailingCells_shape, List.length_append, leadingCells_length,
    monthCells_length]

theorem shapesOf_length (b : Bool) (start : Int) (n : Nat) :
    (shapesOf b (consecutiveDays start n)).length = n := by
  simp [shapesOf, consecutiveDays]

theorem renderCalendar_length (zone : Zone) (now : Clock) (sel : Option String)
    (entry : StorageEntry) (year month : Int) (hy : yearInRange year)
    (hm : 0 ≤ month ∧ month ≤ 11) (hz : zone.keepsMonth year month) :
    (renderCalendar zone now sel entry year month).length
      = (WeekDay (MakeDay (resolvedYear year) month 1)).toNat
        + (monthLength (resolvedYear year) month).toNat
        + (7 - ((WeekDay (MakeDay (resolvedYear year) month 1)).toNat
                + (monthLength (resolvedYear year) month).toNat) % 7) % 7 := by
  have h := congrArg List.length (renderCalendar_shape zone now sel entry year month hy hm hz)
  simp only [List.length_map, List.length_append, shapesOf_length] at h
  exact h

/-- The zone of UTC keeps every day. -/
theorem Zone.utc_keepsDay (d : Int) : Zone.utc.keepsDay d := by
  unfold Zone.keepsDay Zone.utc Day msPerDay
  simp only
  omega

/-! ## Lemmas on the events object -/

theorem lookup_setProp_self (props : EventStore) (k : String) (v : List EventRecord) :
    (setProp props k v).lookup k = some v := by
  induction props with
  | nil => simp [setProp, List.lookup]
  | cons p rest ih =>
    unfold setProp
    split_ifs with h
    · simp [List.lookup]
    · have hb : (k == p.1) = false := by
        simp only [beq_eq_false_iff_ne, ne_eq]
        exact fun e => h e.symm
      obtain ⟨pk, pv⟩ := p
      simp only [List.lookup, hb] at *
      exact ih

theorem lookup_setProp_other (props : EventStore) (k k1 : String) (v : List EventRecord)
    (hne : k1 ≠ k) : (setProp props k v).lookup k1 = props.lookup k1 := by
  induction props with
  | nil =>
    have hb : (k1 == k) = false := by simpa using hne
    simp [setProp, List.lookup, hb]
  | cons p rest ih =>
    obtain ⟨pk, pv⟩ := p
    unfold setProp
    split_ifs with h
    · simp only at h
      subst h
      have hb : (k1 == pk) = false := by simpa using hne
      simp [List.lookup, hb]
    · cases hb : (k1 == pk) <;> simp [List.lookup, hb, ih]

theorem setProp_setProp (props : EventStore) (k : String) (a b : List EventRecord) :
    setProp (setProp props k a) k b = setProp props k b := by
  induction props with
  | nil => simp [setProp]
  | cons p rest ih =>
    unfold setProp
    split_ifs with h
    · simp [setProp, h]
    · simp [setProp, h, ih]

theorem setProp_same (props : EventStore) (k : String) (v : List EventRecord)
    (h : props.lookup k = some v) : setProp props k v = props := by
  induction props with
  | nil => simp [List.lookup] at h
  | cons p rest ih =>
    obtain ⟨pk, pv⟩ := p
    unfold setProp
    split_ifs with hk
    · simp only at hk
      subst hk
      simp [List.lookup] at h
      simp [h]
    · have hb : (k == pk) = false := by
        simp only [beq_eq_false_iff_ne, ne_eq]
        exact fun e => hk e.symm
      simp only [List.lookup, hb] at h
      rw [ih h]

theorem mem_setProp (props : EventStore) (k : String) (v : List EventRecord)
    (p : String × List EventRecord) (hp : p ∈ setProp props k v) :
    p ∈ props ∨ p = (k, v) := by
  induction props with
  | nil =>
    simp [setProp] at hp
    exact Or.inr hp
  | cons q rest ih =>
    unfold setProp at hp
    split_ifs at hp with h
    · rcases List.mem_cons.mp hp with e | e
      · exact Or.inr e
      · exact Or.inl (List.mem_cons_of_mem _ e)
    · rcases List.mem_cons.mp hp with e | e
      · exact Or.inl (e ▸ List.mem_cons_self _ _)
      · rcases ih e with h1 | h1
        · exact Or.inl (List.mem_cons_of_mem _ h1)
        · exact Or.inr h1

theorem deleteProp_cons (p : String × List EventRecord) (rest : EventStore) (k : String) :
    deleteProp (p :: rest) k
      = if p.1 = k then deleteProp rest k else p :: deleteProp rest k := by
  unfold deleteProp
  by_cases h : p.1 = k <;> simp [List.filter_cons, h]

theorem lookup_deleteProp_self (props : EventStore) (k : String) :
    (deleteProp props k).lookup k = none := by
  induction props with
  | nil => simp [deleteProp, List.lookup]
  | cons p rest ih =>
    obtain ⟨pk, pv⟩ := p
    rw [deleteProp_cons]
    by_cases h : pk = k
    · simp only [h, if_true]
      exact ih
    · have hb : (k == pk) = false := by
        simp only [beq_eq_false_iff_ne, ne_eq]
        exact fun e => h e.symm
      simp only [h, if_false, List.lookup, hb]
      exact ih

theorem lookup_deleteProp_other (props : EventStore) (k k1 : String) (hne : k1 ≠ k) :
    (deleteProp props k).lookup k1 = props.lookup k1 := by
  induction props with
  | nil => simp [deleteProp, List.lookup]
  | cons p rest ih =>
    obtain ⟨pk, pv⟩ := p
    rw [deleteProp_cons]
    by_cases h : pk = k
    · have hb : (k1 == pk) = false := by
        simp only [beq_eq_false_iff_ne, ne_eq]
        exact fun e => hne (e.trans h)
      simp only [h, if_true, List.lookup]
      rw [← h, hb, h]
      exact ih
    · simp only [h, if_false, List.lookup]
      cases hb : (k1 == pk)
      · exact ih
      · rfl

theorem not_mem_keys_deleteProp (props : EventStore) (k : String) :
    k ∉ (deleteProp props k).map Prod.fst := by
  simp [deleteProp, List.mem_map, List.mem_filter]

theorem NoEmptyKey_setProp (props : EventStore) (k : String) (v : List EventRecord)
    (h : NoEmptyKey props) (hv : v ≠ []) : NoEmptyKey (setProp props k v) := by
  intro p hp
  rcases mem_setProp props k v p hp with h1 | h1
  · exact h p h1
  · rw [h1]
    exact hv

theorem NoEmptyKey_deleteProp (props : EventStore) (k : String) (h : NoEmptyKey props) :
    NoEmptyKey (deleteProp props k) := by
  intro p hp
  exact h p (List.mem_of_mem_filter hp)

/-! ## Lemmas on the mutations -/

theorem eventFormSubmit_rejected (entry : StorageEntry) (sel : Option String)
    (t tm n iso : String) (h : noDateSelected sel = true ∨ jsTrim t = "") :
    eventFormSubmit entry sel t tm n iso = some entry := by
  unfold eventFormSubmit
  cases sel with
  | none => rfl
  | some key =>
    by_cases hk : key = ""
    · simp [hk]
    · rcases h with h | h
      · simp [noDateSelected, hk] at h
      · simp [hk, h]

theorem eventFormSubmit_object (entry : StorageEntry) (props : EventStore) (key : String)
    (t tm n iso : String) (hl : loadEvents entry = .object props) (hk : key ≠ "")
    (ht : jsTrim t ≠ "") :
    eventFormSubmit entry (some key) t tm n iso
      = some (saveEvents (setProp props key
          ((props.lookup key).getD [] ++ [newRecord t tm n iso]))) := by
  unfold eventFormSubmit
  simp only [hk, ht, if_false, hl, newRecord]
  cases hlk : props.lookup key with
  | none => simp [lookup_setProp_self, setProp_setProp]
  | some arr => simp [hlk]

theorem splice1_of_length_le (arr : List EventRecord) (idx : Int)
    (h : (arr.length : Int) ≤ idx) : splice1 arr idx = arr := by
  unfold splice1
  have h0 : ¬ idx < 0 := by omega
  simp only [h0, if_false, min_eq_right h]
  simp

theorem splice1_length (arr : List EventRecord) (idx : Int) :
    (splice1 arr idx).length ≤ arr.length := by
  unfold splice1
  simp only [List.length_append, List.length_take, List.length_drop]
  omega

theorem deleteEvent_object (entry : StorageEntry) (props : EventStore) (k : String)
    (idx : Int) (arr : List EventRecord) (hl : loadEvents entry = .object props)
    (hk : props.lookup k = some arr) :
    deleteEvent entry k idx
      = some (saveEvents (if splice1 arr idx = [] then deleteProp props k
          else setProp props k (splice1 arr idx))) := by
  unfold deleteEvent
  simp only [hl, hk, List.length_eq_zero]
  split_ifs <;> rfl

theorem deleteEvent_absent (entry : StorageEntry) (props : EventStore) (k : String)
    (idx : Int) (hl : loadEvents entry = .object props) (hk : props.lookup k = none) :
    deleteEvent entry k idx = some entry := by
  unfold deleteEvent
  simp only [hl, hk]

theorem clearEventsClick_object (entry : StorageEntry) (props : EventStore)
    (sel : Option String) (c : Bool) (hl : loadEvents entry = .object props) :
    clearEventsClick entry sel c = some entry
      ∨ clearEventsClick entry sel c = some (saveEvents (deleteProp props (sel.getD ""))) := by
  unfold clearEventsClick
  split_ifs
  · exact Or.inl rfl
  · exact Or.inl rfl
  · right
    simp [hl]

/-! ## Lemmas on the comparison and the sorted copy -/

theorem compareChars_nil_left (b : List Char) : compareChars [] b ≤ 0 := by
  cases b <;> simp [compareChars]

theorem compareChars_nil_right (a : List Char) (h : compareChars a [] ≤ 0) : a = [] := by
  cases a with
  | nil => rfl
  | cons x xs => simp [compareChars] at h

theorem compareChars_total (a b : List Char) :
    compareChars a b ≤ 0 ∨ compareChars b a ≤ 0 := by
  induction a generalizing b with
  | nil => exact Or.inl (compareChars_nil_left b)
  | cons x xs ih =>
    cases b with
    | nil => exact Or.inr (compareChars_nil_left _)
    | cons y ys =>
      simp only [compareChars]
      by_cases h1 : x.toNat < y.toNat
      · simp [h1]
      · by_cases h2 : y.toNat < x.toNat
        · simp [h1, h2]
        · simp only [h1, h2, if_false]
          exact ih ys

theorem compareChars_trans (a b c : List Char) (h1 : compareChars a b ≤ 0)
    (h2 : compareChars b c ≤ 0) : compareChars a c ≤ 0 := by
  induction a generalizing b c with
  | nil => exact compareChars_nil_left c
  | cons x xs ih =>
    cases b with
    | nil => simp [compareChars] at h1
    | cons y ys =>
      cases c with
      | nil => simp [compareChars] at h2
      | cons z zs =>
        simp only [compareChars] at h1 h2 ⊢
        by_cases hxy : x.toNat < y.toNat
        · have hxz : x.toNat < z.toNat := by
            by_cases hyz : y.toNat < z.toNat
            · omega
            · by_cases hzy : z.toNat < y.toNat
              · simp [hyz, hzy] at h2
              · omega
          simp [hxz]
        · by_cases hyx : y.toNat < x.toNat
          · simp [hxy, hyx] at h1
          · simp only [hxy, hyx, if_false] at h1
            by_cases hyz : y.toNat < z.toNat
            · have hxz : x.toNat < z.toNat := by omega
              simp [hxz]
            · by_cases hzy : z.toNat < y.toNat
              · simp [hyz, hzy] at h2
              · simp only [hyz, hzy, if_false] at h2
                have e1 : ¬ x.toNat < z.toNat := by omega
                have e2 : ¬ z.toNat < x.toNat := by omega
                simp only [e1, e2, if_false]
                exact ih ys zs h1 h2

theorem timeNotAfter_total : IsTotal EventRecord timeNotAfter :=
  ⟨fun _ _ => compareChars_total _ _⟩

theorem timeNotAfter_trans : IsTrans EventRecord timeNotAfter :=
  ⟨fun _ _ _ h1 h2 => compareChars_trans _ _ _ h1 h2⟩

theorem sortByTime_perm (arr : List EventRecord) : (sortByTime arr).Perm arr :=
  List.perm_insertionSort timeNotAfter arr

theorem sortByTime_sorted (arr : List EventRecord) :
    (sortByTime arr).Pairwise timeNotAfter :=
  @List.sorted_insertionSort EventRecord timeNotAfter _ timeNotAfter_total
    timeNotAfter_trans arr

theorem timeNotAfter_empty (a b : EventRecord) (h : timeNotAfter a b)
    (hb : timeOrEmpty b = "") : timeOrEmpty a = "" := by
  unfold timeNotAfter localeCompare at h
  rw [hb] at h
  have hnil : (timeOrEmpty a).toList = [] := compareChars_nil_right _ h
  exact String.ext hnil

theorem rowsOf_events (l : List EventRecord) : (rowsOf l).map EventRow.event = l := by
  unfold rowsOf
  rw [List.map_map]
  exact List.enum_map_snd l

theorem rowsOf_deleteIndex (l : List EventRecord) :
    (rowsOf l).map EventRow.deleteIndex = List.range l.length := by
  unfold rowsOf
  rw [List.map_map]
  exact List.enum_map_fst l

/-! ## Lemmas on trimming -/

theorem jsTrim_toList (s : String) :
    (jsTrim s).toList
      = ((s.toList.dropWhile isJsWhiteSpace).reverse.dropWhile isJsWhiteSpace).reverse := by
  rfl

theorem jsTrim_eq_empty_iff (s : String) :
    jsTrim s = "" ↔ ∀ c ∈ s.toList, isJsWhiteSpace c = true := by
  have h1 : jsTrim s = "" ↔ (jsTrim s).toList = [] := by
    constructor
    · intro h
      rw [h]
      rfl
    · intro h
      exact String.ext h
  rw [h1, jsTrim_toList, List.reverse_eq_nil_iff, List.dropWhile_eq_nil_iff]
  constructor
  · intro h
    have hm : s.toList.dropWhile isJsWhiteSpace = [] := by
      by_contra hne
      have hh := List.head_dropWhile_not isJsWhiteSpace s.toList hne
      have hmem : (s.toList.dropWhile isJsWhiteSpace).head hne
          ∈ (s.toList.dropWhile isJsWhiteSpace).reverse :=
        List.mem_reverse.mpr (List.head_mem hne)
      rw [h _ hmem] at hh
      exact Bool.noConfusion hh
    exact List.dropWhile_eq_nil_iff.mp hm
  · intro h
    rw [List.dropWhile_eq_nil_iff.mpr h]
    intro x hx
    simp at hx

theorem jsTrim_trimmedOf (s : String) : TrimmedOf s (jsTrim s) := by
  refine ⟨s.toList.takeWhile isJsWhiteSpace,
    ((s.toList.dropWhile isJsWhiteSpace).reverse.takeWhile isJsWhiteSpace).reverse,
    ?_, ?_, ?_, ?_, ?_⟩
  · rw [jsTrim_toList, List.append_assoc, ← List.reverse_append,
      List.takeWhile_append_dropWhile, List.reverse_reverse,
      List.takeWhile_append_dropWhile]
  · intro c hc
    exact List.mem_takeWhile_imp hc
  · intro c hc
    exact List.mem_takeWhile_imp (List.mem_reverse.mp hc)
  · intro c hc
    rw [jsTrim_toList] at hc
    set m := s.toList.dropWhile isJsWhiteSpace with hm
    have hsplit : m = (m.reverse.dropWhile isJsWhiteSpace).reverse
        ++ (m.reverse.takeWhile isJsWhiteSpace).reverse := by
      rw [← List.reverse_append, List.takeWhile_append_dropWhile, List.reverse_reverse]
    have hne : (m.reverse.dropWhile isJsWhiteSpace).reverse ≠ [] := by
      intro h
      rw [h] at hc
      simp at hc
    have hhead : m.head? = some c := by
      rw [hsplit, List.head?_append_of_ne_nil _ hne]
      exact hc
    have hnot := List.head?_dropWhile_not isJsWhiteSpace s.toList
    rw [← hm, hhead] at hnot
    exact hnot
  · intro c hc
    rw [jsTrim_toList, List.getLast?_reverse] at hc
    have hnot := List.head?_dropWhile_not isJsWhiteSpace
      (s.toList.dropWhile isJsWhiteSpace).reverse
    rw [hc] at hnot
    exact hnot

/-! ## Lemmas on the lexicographic order -/

theorem compareChars_neg_iff (a b : List Char) : compareChars a b < 0 ↔ a < b := by
  induction a generalizing b with
  | nil =>
    cases b with
    | nil =>
      simp only [compareChars]
      constructor
      · intro h
        omega
      · intro h
        cases h
    | cons y ys =>
      simp only [compareChars]
      constructor
      · intro _
        exact List.Lex.nil
      · intro _
        omega
  | cons x xs ih =>
    cases b with
    | nil =>
      simp only [compareChars]
      constructor
      · intro h
        omega
      · intro h
        cases h
    | cons y ys =>
      simp only [compareChars]
      by_cases h1 : x.toNat < y.toNat
      · simp only [h1, if_true]
        constructor
        · intro _
          exact List.Lex.rel h1
        · intro _
          omega
      · by_cases h2 : y.toNat < x.toNat
        · simp only [h1, h2, if_true, if_false]
          constructor
          · intro h
            omega
          · intro h
            cases h with
            | cons _ => exact absurd h2 (Nat.lt_irrefl _)
            | rel hlt => exact absurd hlt h1
        · simp only [h1, h2, if_false]
          have hx1 : ¬ x < y := h1
          have hx2 : ¬ y < x := h2
          have hxy : x = y := le_antisymm (not_lt.mp hx2) (not_lt.mp hx1)
          subst hxy
          rw [ih ys]
          constructor
          · intro h
            exact List.Lex.cons h
          · intro h
            cases h with
            | cons ht => exact ht
            | rel hlt => exact absurd hlt h1

theorem compareChars_antisymm (a b : List Char) (h : compareChars a b ≤ 0) :
    ¬ compareChars b a < 0 := by
  induction a generalizing b with
  | nil =>
    cases b <;> simp [compareChars]
  | cons x xs ih =>
    cases b with
    | nil => simp [compareChars] at h
    | cons y ys =>
      simp only [compareChars] at h ⊢
      by_cases h1 : x.toNat < y.toNat
      · have h2 : ¬ y.toNat < x.toNat := by omega
        simp [h1, h2]
      · by_cases h2 : y.toNat < x.toNat
        · simp [h1, h2] at h
        · simp only [h1, h2, if_false] at h ⊢
          exact ih ys h

theorem timeNotAfter_iff_not_lt (a b : EventRecord) (h : timeNotAfter a b) :
    ¬ (b.time.getD "" < a.time.getD "") := by
  unfold timeNotAfter localeCompare timeOrEmpty at h
  rw [String.lt_iff_toList_lt, ← compareChars_neg_iff]
  exact compareChars_antisymm _ _ h

theorem timeNotAfter_missing (a b : EventRecord) (h : timeNotAfter a b)
    (hb : b.time = none ∨ b.time = some "") : a.time = none ∨ a.time = some "" := by
  have hbe : timeOrEmpty b = "" := by
    unfold timeOrEmpty
    rcases hb with hb | hb <;> rw [hb] <;> rfl
  have hae := timeNotAfter_empty a b h hbe
  unfold timeOrEmpty at hae
  cases hta : a.time with
  | none => exact Or.inl rfl
  | some t =>
    rw [hta] at hae
    exact Or.inr (congrArg some hae)

/-! ## Lemmas on the invariant -/

theorem eventFormSubmit_preserves (entry : StorageEntry) (store : EventStore)
    (sel : Option String) (t tm n iso : String) (hl : loadEvents entry = .object store)
    (hinv : NoEmptyKey store) :
    ∃ e1 store1, eventFormSubmit entry sel t tm n iso = some e1
      ∧ loadEvents e1 = .object store1 ∧ NoEmptyKey store1 := by
  by_cases hr : noDateSelected sel = true ∨ jsTrim t = ""
  · exact ⟨entry, store, eventFormSubmit_rejected entry sel t tm n iso hr, hl, hinv⟩
  · push_neg at hr
    obtain ⟨hs, ht⟩ := hr
    cases sel with
    | none => simp [noDateSelected] at hs
    | some key =>
      have hk : key ≠ "" := by simpa [noDateSelected] using hs
      refine ⟨_, _, eventFormSubmit_object entry store key t tm n iso hl hk ht, rfl, ?_⟩
      exact NoEmptyKey_setProp _ _ _ hinv (by simp)

theorem deleteEvent_preserves (entry : StorageEntry) (store : EventStore) (k : String)
    (idx : Int) (hl : loadEvents entry = .object store) (hinv : NoEmptyKey store) :
    ∃ e1 store1, deleteEvent entry k idx = some e1
      ∧ loadEvents e1 = .object store1 ∧ NoEmptyKey store1 := by
  cases hk : store.lookup k with
  | none => exact ⟨entry, store, deleteEvent_absent entry store k idx hl hk, hl, hinv⟩
  | some arr =>
    refine ⟨_, _, deleteEvent_object entry store k idx arr hl hk, rfl, ?_⟩
    split_ifs with he
    · exact NoEmptyKey_deleteProp _ _ hinv
    · exact NoEmptyKey_setProp _ _ _ hinv he

theorem clearEventsClick_preserves (entry : StorageEntry) (store : EventStore)
    (sel : Option String) (c : Bool) (hl : loadEvents entry = .object store)
    (hinv : NoEmptyKey store) :
    ∃ e1 store1, clearEventsClick entry sel c = some e1
      ∧ loadEvents e1 = .object store1 ∧ NoEmptyKey store1 := by
  rcases clearEventsClick_object entry store sel c hl with h | h
  · exact ⟨entry, store, h, hl, hinv⟩
  · exact ⟨_, _, h, rfl, NoEmptyKey_deleteProp _ _ hinv⟩

theorem Reachable_noEmptyKey (e : StorageEntry) (h : Reachable e) :
    ∃ store, loadEvents e = .object store ∧ NoEmptyKey store := by
  induction h with
  | absent => exact ⟨[], rfl, by simp [NoEmptyKey]⟩
  | empty => exact ⟨[], rfl, by simp [NoEmptyKey]⟩
  | submit e e1 sel t tm n iso _ hs ih =>
    obtain ⟨store, hl, hinv⟩ := ih
    obtain ⟨e2, store2, h2, hl2, hinv2⟩ :=
      eventFormSubmit_preserves e store sel t tm n iso hl hinv
    rw [hs] at h2
    cases h2
    exact ⟨store2, hl2, hinv2⟩
  | delete e e1 k idx _ hs ih =>
    obtain ⟨store, hl, hinv⟩ := ih
    obtain ⟨e2, store2, h2, hl2, hinv2⟩ := deleteEvent_preserves e store k idx hl hinv
    rw [hs] at h2
    cases h2
    exact ⟨store2, hl2, hinv2⟩
  | clear e e1 sel c _ hs ih =>
    obtain ⟨store, hl, hinv⟩ := ih
    obtain ⟨e2, store2, h2, hl2, hinv2⟩ := clearEventsClick_preserves e store sel c hl hinv
    rw [hs] at h2
    cases h2
    exact ⟨store2, hl2, hinv2⟩

/-! ## The claims on the grid -/

/-- C1: in January 2025 the first cell of the grid is 29 December 2024, whose canonical key
is "2024-12-29", but the cell carries the key "2025-00-29"; in December 2025 the last cell
is 3 January 2026, whose canonical key is "2026-01-03", but the cell carries the key
"2025-13-03". -/
theorem renderCalendar_other_month_key_no_rollover :
    ((renderCalendar Zone.utc ⟨2025, 5, 15⟩ none .absent 2025 0).head?.map DateCell.dateKey
        = some "2025-00-29"
      ∧ canonicalKey 2025 (0 - 1) 29 = "2024-12-29")
    ∧ ((renderCalendar Zone.utc ⟨2025, 5, 15⟩ none .absent 2025 11).getLast?.map
          DateCell.dateKey
        = some "2025-13-03"
      ∧ canonicalKey 2025 (11 + 1) 3 = "2026-01-03") := by
  decide

/-- C2 (as stated, refuted): for January of the year 300000 no `Date` is valid, the grid
has no cell, and so fewer cells than the 31 days of the month; and in a zone that skips
31 December 1994 the grid of December 1994 has 7 cells, fewer than the 31 days of the
month. -/
theorem renderCalendar_count_fails :
    ((renderCalendar Zone.utc ⟨2025, 5, 15⟩ none .absent 300000 0).length = 0
      ∧ monthLength 300000 0 = 31
      ∧ ¬ (monthLength 300000 0
            ≤ ((renderCalendar Zone.utc ⟨2025, 5, 15⟩ none .absent 300000 0).length : Int)))
    ∧ ((renderCalendar Zone.skipsLastDayOf1994 ⟨2025, 5, 15⟩ none .absent 1994 11).length = 7
      ∧ monthLength 1994 11 = 31
      ∧ ¬ (monthLength 1994 11
            ≤ ((renderCalendar Zone.skipsLastDayOf1994 ⟨2025, 5, 15⟩ none .absent
                  1994 11).length : Int))) := by
  decide

/-- C2 (amended): for every year from -271820 to 275759 and every month in [0,11], in a
time zone that keeps the 1st of the month, the last day of the month and the last day of
the month before (their local midnights are instants within a day of UTC and fall on
those days), the number of cells that `renderCalendar` appends is a multiple of 7, at
least the number of days of that month, and at most 42. -/
theorem renderCalendar_count (zone : Zone) (now : Clock) (sel : Option String)
    (entry : StorageEntry) (year month : Int) (hy : -271820 ≤ year ∧ year ≤ 275759)
    (hm : 0 ≤ month ∧ month ≤ 11) (hz : zone.keepsMonth year month) :
    (renderCalendar zone now sel entry year month).length % 7 = 0
      ∧ monthLength year month
          ≤ ((renderCalendar zone now sel entry year month).length : Int)
      ∧ (renderCalendar zone now sel entry year month).length ≤ 42 := by
  have hlen := renderCalendar_length zone now sel entry year month hy hm hz
  have hw := WeekDay_bounds (MakeDay (resolvedYear year) month 1)
  have hb := monthLength_bounds (resolvedYear year) month
  have hb2 := monthLength_bounds year month
  refine ⟨by omega, ?_, by omega⟩
  by_cases h0 : year = 0 ∧ month = 1
  · obtain ⟨hy0, hm1⟩ := h0
    subst hy0
    subst hm1
    have e1 : WeekDay (MakeDay (resolvedYear 0) 1 1) = 4 := by decide
    have e2 : monthLength (resolvedYear 0) 1 = 28 := by decide
    have e3 : monthLength 0 1 = 29 := by decide
    rw [e1, e2] at hlen
    rw [e3, hlen]
    decide
  · have hle : monthLength year month ≤ monthLength (resolvedYear year) month := by
      unfold monthLength resolvedYear InLeapYear DaysInYear
      split_ifs <;> omega
    omega

/-- Witness of C2 (amended): February 2024 in the zone that skips 31 December 1994, which
keeps 1 February, 29 February and 31 January 2024. -/
theorem renderCalendar_count_witness :
    Zone.skipsLastDayOf1994.keepsMonth 2024 1
      ∧ (renderCalendar Zone.skipsLastDayOf1994 ⟨2025, 5, 15⟩ none .absent 2024 1).length % 7
          = 0
      ∧ monthLength 2024 1
          ≤ ((renderCalendar Zone.skipsLastDayOf1994 ⟨2025, 5, 15⟩ none .absent
                2024 1).length : Int)
      ∧ (renderCalendar Zone.skipsLastDayOf1994 ⟨2025, 5, 15⟩ none .absent 2024 1).length
          ≤ 42 :=
  ⟨by unfold Zone.keepsMonth Zone.keepsDay; decide,
    renderCalendar_count Zone.skipsLastDayOf1994 ⟨2025, 5, 15⟩ none .absent 2024 1
      (by decide) (by decide) (by unfold Zone.keepsMonth Zone.keepsDay; decide)⟩

/-- C3 (as stated, refuted): for January of the year 300000 the grid is empty; in a zone
that skips 31 December 1994 the grid of December 1994 shows one day of the month only;
and for January of the year 1, which `Date` reads as 1901, the grid starts with two cells
of the month before where the 1st of January of the year 1, a Monday, asks for one. -/
theorem renderCalendar_shape_fails :
    (renderCalendar Zone.utc ⟨2025, 5, 15⟩ none .absent 300000 0).map cellShape
        ≠ gridShape 300000 0
      ∧ (renderCalendar Zone.skipsLastDayOf1994 ⟨2025, 5, 15⟩ none .absent 1994 11).map
            cellShape
          ≠ gridShape 1994 11
      ∧ (renderCalendar Zone.utc ⟨2025, 5, 15⟩ none .absent 1 0).map cellShape
          ≠ gridShape 1 0
      ∧ WeekDay (MakeDay 1 0 1) = 1
      ∧ ((renderCalendar Zone.utc ⟨2025, 5, 15⟩ none .absent 1 0).map cellShape).take 3
          = [(true, some 30), (true, some 31), (false, some 1)] := by
  decide

/-- C3 (amended): for every year from -271820 to -1 or from 100 to 275759 and every month
in [0,11], in a time zone that keeps the 1st of the month, the last day of the month and
the last day of the month before (their local midnights are instants within a day of UTC
and fall on those days), with firstWeekday the weekday of the 1st of the month and
daysInMonth and daysInPrevMonth the lengths of the month and of the month before, the
cells are exactly: firstWeekday other-month cells with the days
daysInPrevMonth-firstWeekday+1 .. daysInPrevMonth, then daysInMonth current-month cells
with the days 1..daysInMonth, then (7 - (firstWeekday+daysInMonth) % 7) % 7 other-month
cells with the days from 1 on. -/
theorem renderCalendar_cells (zone : Zone) (now : Clock) (sel : Option String)
    (entry : StorageEntry) (year month : Int)
    (hy : (-271820 ≤ year ∧ year ≤ -1) ∨ (100 ≤ year ∧ year ≤ 275759))
    (hm : 0 ≤ month ∧ month ≤ 11) (hz : zone.keepsMonth year month) :
    (renderCalendar zone now sel entry year month).map cellShape
      = gridShape year month := by
  have hr : resolvedYear year = year := by
    unfold resolvedYear
    rw [if_neg]
    omega
  have hyr : yearInRange year := by
    unfold yearInRange
    omega
  rw [renderCalendar_shape zone now sel entry year month hyr hm hz, hr]
  unfold gridShape
  have hw := WeekDay_bounds (MakeDay year month 1)
  have hb := monthLength_bounds year month
  have e : ((7 - (WeekDay (MakeDay year month 1) + monthLength year month) % 7) % 7).toNat
      = (7 - ((WeekDay (MakeDay year month 1)).toNat
        + (monthLength year month).toNat) % 7) % 7 := by
    omega
  simp only [e]

/-- Witness of C3 (amended): February 2024, in the zone that skips 31 December 1994, has
4 cells of January, 29 days and 2 cells of March. -/
theorem renderCalendar_cells_witness :
    Zone.skipsLastDayOf1994.keepsMonth 2024 1
      ∧ (renderCalendar Zone.skipsLastDayOf1994 ⟨2025, 5, 15⟩ none .absent 2024 1).map
            cellShape
          = gridShape 2024 1
      ∧ gridShape 2024 1
          = shapesOf true [28, 29, 30, 31]
            ++ shapesOf false (consecutiveDays 1 29)
            ++ shapesOf true [1, 2] :=
  ⟨by unfold Zone.keepsMonth Zone.keepsDay; decide,
    renderCalendar_cells Zone.skipsLastDayOf1994 ⟨2025, 5, 15⟩ none .absent 2024 1
      (Or.inr (by decide)) (by decide) (by unfold Zone.keepsMonth Zone.keepsDay; decide),
    by decide⟩

/-! ## The claims on the event store -/

/-- C4: when the entry loads as the events object `store`, the submit handler completes;
if a date is selected and the title has a character that is not white space, the store it
persists has one record appended at the end of the sequence at the selected key (an absent
sequence counting as empty, so that a key without events then holds exactly this one
record) and every other key as before; the record holds the title without its leading and
trailing white space, which is not empty, the time as given, the notes without their
leading and trailing white space and createdAt. If no date is selected or the title
consists of white space only, the storage entry is unchanged. -/
theorem eventFormSubmit_appends (entry : StorageEntry) (store : EventStore)
    (sel : Option String) (titleValue timeValue notesValue isoNow : String)
    (hl : loadEvents entry = .object store) :
    (∀ key, sel = some key → key ≠ "" →
      (∃ c ∈ titleValue.toList, isJsWhiteSpace c = false) →
      ∃ store1 title notes, TrimmedOf titleValue title ∧ title ≠ ""
        ∧ TrimmedOf notesValue notes
        ∧ eventFormSubmit entry sel titleValue timeValue notesValue isoNow
          = some (saveEvents store1)
        ∧ store1.lookup key = some ((store.lookup key).getD []
            ++ [EventRecord.mk title (some timeValue) notes isoNow])
        ∧ (store.lookup key = none →
            store1.lookup key = some [EventRecord.mk title (some timeValue) notes isoNow])
        ∧ ∀ k, k ≠ key → store1.lookup k = store.lookup k)
    ∧ ((sel = none ∨ sel = some ""
          ∨ ∀ c ∈ titleValue.toList, isJsWhiteSpace c = true) →
        eventFormSubmit entry sel titleValue timeValue notesValue isoNow = some entry) := by
  constructor
  · intro key hs hk hc
    subst hs
    have ht : jsTrim titleValue ≠ "" := by
      intro he
      obtain ⟨c, hmem, hws⟩ := hc
      rw [(jsTrim_eq_empty_iff titleValue).mp he c hmem] at hws
      exact Bool.noConfusion hws
    refine ⟨_, jsTrim titleValue, jsTrim notesValue, jsTrim_trimmedOf titleValue, ht,
      jsTrim_trimmedOf notesValue,
      eventFormSubmit_object entry store key titleValue timeValue notesValue isoNow hl hk ht,
      ?_, ?_, ?_⟩
    · rw [lookup_setProp_self]
      rfl
    · intro hn
      rw [lookup_setProp_self, hn]
      rfl
    · intro k hne
      exact lookup_setProp_other _ _ _ _ hne
  · intro h
    apply eventFormSubmit_rejected
    rcases h with h | h | h
    · left
      rw [h]
      rfl
    · left
      rw [h]
      rfl
    · exact Or.inr ((jsTrim_eq_empty_iff titleValue).mpr h)

/-- Witness of C4: on a store with no events and with 2025-03-10 selected, the title
"  Meeting" followed by a space and a line end is stored as "Meeting" at 09:00, with
notes of white space stored as empty notes; a title of a space, a tab and a line end is
rejected and leaves the entry absent. -/
theorem eventFormSubmit_appends_witness :
    (∃ store1, eventFormSubmit .absent (some "2025-03-10") "  Meeting \n" "09:00" " \t" "t"
          = some (saveEvents store1)
        ∧ store1.lookup "2025-03-10" = some [EventRecord.mk "Meeting" (some "09:00") "" "t"])
      ∧ eventFormSubmit .absent (some "2025-03-10") " \t\n" "09:00" "" "t" = some .absent := by
  constructor
  · obtain ⟨store1, title, notes, _, _, _, h1, _, h3, _⟩ :=
      (eventFormSubmit_appends .absent [] (some "2025-03-10") "  Meeting \n" "09:00" " \t" "t"
        rfl).1 "2025-03-10" rfl (by decide) ⟨'M', by decide, by decide⟩
    have hc : eventFormSubmit .absent (some "2025-03-10") "  Meeting \n" "09:00" " \t" "t"
        = some (saveEvents [("2025-03-10", [EventRecord.mk "Meeting" (some "09:00") "" "t"])]) := by
      decide
    have hs : store1 = [("2025-03-10", [EventRecord.mk "Meeting" (some "09:00") "" "t"])] := by
      rw [hc] at h1
      simp only [saveEvents, Option.some.injEq, StorageEntry.parsed.injEq,
        JsValue.object.injEq] at h1
      exact h1.symm
    refine ⟨store1, h1, ?_⟩
    rw [hs]
    decide
  · exact (eventFormSubmit_appends .absent [] (some "2025-03-10") " \t\n" "09:00" "" "t"
      rfl).2 (Or.inr (Or.inr (by decide)))

/-- C5 (as stated, refuted): with two events A, B stored at a key, `deleteEvent` with the
index -1 removes B and persists a store that holds A only. -/
theorem deleteEvent_negative_index :
    deleteEvent
        (saveEvents [("2025-01-05", [⟨"A", some "10:00", "", "t1"⟩, ⟨"B", some "09:00", "", "t2"⟩])])
        "2025-01-05" (-1)
      = some (saveEvents [("2025-01-05", [⟨"A", some "10:00", "", "t1"⟩])])
    ∧ saveEvents [("2025-01-05", [⟨"A", some "10:00", "", "t1"⟩])]
      ≠ saveEvents [("2025-01-05", [⟨"A", some "10:00", "", "t1"⟩, ⟨"B", some "09:00", "", "t2"⟩])] := by
  decide

/-- C5 (amended): when the entry loads as the events object `store` and either the key is
absent or its sequence is not empty and the index is at least its length, `deleteEvent`
completes and the persisted store is `store`, unchanged. -/
theorem deleteEvent_out_of_range (entry : StorageEntry) (store : EventStore)
    (dateKey : String) (idx : Int) (hl : loadEvents entry = .object store)
    (h : store.lookup dateKey = none
      ∨ ∃ arr, store.lookup dateKey = some arr ∧ arr ≠ [] ∧ (arr.length : Int) ≤ idx) :
    ∃ e1, deleteEvent entry dateKey idx = some e1 ∧ loadEvents e1 = .object store := by
  rcases h with hk | ⟨arr, hk, hne, hidx⟩
  · exact ⟨entry, deleteEvent_absent entry store dateKey idx hl hk, hl⟩
  · refine ⟨_, deleteEvent_object entry store dateKey idx arr hl hk, ?_⟩
    rw [splice1_of_length_le arr idx hidx, if_neg hne, setProp_same store dateKey arr hk]
    rfl

/-- Witness of C5 (amended): index 2 on a sequence of two events. -/
theorem deleteEvent_out_of_range_witness :
    ∃ e1, deleteEvent
        (saveEvents [("2025-01-05", [⟨"A", some "10:00", "", "t1"⟩, ⟨"B", some "09:00", "", "t2"⟩])])
        "2025-01-05" 2 = some e1
      ∧ loadEvents e1 = .object
          [("2025-01-05", [⟨"A", some "10:00", "", "t1"⟩, ⟨"B", some "09:00", "", "t2"⟩])] :=
  deleteEvent_out_of_range _ _ "2025-01-05" 2 rfl
    (Or.inr ⟨[⟨"A", some "10:00", "", "t1"⟩, ⟨"B", some "09:00", "", "t2"⟩],
      by decide, by decide, by decide⟩)

/-- C6: each of the three mutations (submit, `deleteEvent` with any key and index,
clear-all), run on an entry that loads as an events object without an empty sequence,
completes and persists an events object without an empty sequence; hence every entry
reachable from the empty store loads as such an object; and `deleteEvent` with index 0 on a
key that holds exactly one event persists an object without that key, the other keys as
before. -/
theorem noEmptyKey_invariant :
    (∀ (entry : StorageEntry) (store : EventStore) (sel : Option String)
        (t tm n iso : String), loadEvents entry = .object store → NoEmptyKey store →
        ∃ e1 store1, eventFormSubmit entry sel t tm n iso = some e1
          ∧ loadEvents e1 = .object store1 ∧ NoEmptyKey store1)
    ∧ (∀ (entry : StorageEntry) (store : EventStore) (k : String) (idx : Int),
        loadEvents entry = .object store → NoEmptyKey store →
        ∃ e1 store1, deleteEvent entry k idx = some e1
          ∧ loadEvents e1 = .object store1 ∧ NoEmptyKey store1)
    ∧ (∀ (entry : StorageEntry) (store : EventStore) (sel : Option String) (c : Bool),
        loadEvents entry = .object store → NoEmptyKey store →
        ∃ e1 store1, clearEventsClick entry sel c = some e1
          ∧ loadEvents e1 = .object store1 ∧ NoEmptyKey store1)
    ∧ (∀ e : StorageEntry, Reachable e →
        ∃ store, loadEvents e = .object store ∧ NoEmptyKey store)
    ∧ (∀ (entry : StorageEntry) (store : EventStore) (k : String) (ev : EventRecord),
        loadEvents entry = .object store → store.lookup k = some [ev] →
        ∃ store1, deleteEvent entry k 0 = some (saveEvents store1)
          ∧ k ∉ store1.map Prod.fst
          ∧ ∀ k1, k1 ≠ k → store1.lookup k1 = store.lookup k1) := by
  refine ⟨eventFormSubmit_preserves, deleteEvent_preserves, clearEventsClick_preserves,
    Reachable_noEmptyKey, ?_⟩
  intro entry store k ev hl hk
  refine ⟨deleteProp store k, ?_, not_mem_keys_deleteProp store k,
    fun k1 hne => lookup_deleteProp_other store k k1 hne⟩
  rw [deleteEvent_object entry store k 0 [ev] hl hk]
  have hs : splice1 [ev] 0 = [] := by
    simp [splice1]
  rw [if_pos hs]

/-- Witness of C6: deleting the only event of 2025-01-05 leaves a store without that
key. -/
theorem noEmptyKey_invariant_witness :
    ∃ store1, deleteEvent (saveEvents [("2025-01-05", [⟨"A", some "10:00", "", "t1"⟩])])
        "2025-01-05" 0 = some (saveEvents store1)
      ∧ "2025-01-05" ∉ store1.map Prod.fst := by
  obtain ⟨store1, h1, h2, _⟩ :=
    noEmptyKey_invariant.2.2.2.2 (saveEvents [("2025-01-05", [⟨"A", some "10:00", "", "t1"⟩])])
      [("2025-01-05", [⟨"A", some "10:00", "", "t1"⟩])] "2025-01-05"
      ⟨"A", some "10:00", "", "t1"⟩ rfl (by decide)
  exact ⟨store1, h1, h2⟩

/-- C7: when the entry loads as the events object `store`, `renderEventList` completes,
leaves the storage entry as it is, and shows a permutation of the sequence stored at the
key (empty when the key is absent) in which no event comes before one whose `time` (a
missing time counting as the empty string) is smaller in the lexicographic order of
strings, and in which the events with an empty or missing `time` come first. -/
theorem renderEventList_sorted (entry : StorageEntry) (store : EventStore)
    (dateKey : String) (hl : loadEvents entry = .object store) :
    ∃ rows, renderEventList entry dateKey = some (rows, entry)
      ∧ (rows.map EventRow.event).Perm ((store.lookup dateKey).getD [])
      ∧ (rows.map EventRow.event).Pairwise
          (fun a b => ¬ (b.time.getD "" < a.time.getD ""))
      ∧ (rows.map EventRow.event).Pairwise
          (fun a b => (b.time = none ∨ b.time = some "")
            → (a.time = none ∨ a.time = some "")) := by
  refine ⟨rowsOf (sortByTime ((store.lookup dateKey).getD [])), ?_, ?_, ?_, ?_⟩
  · unfold renderEventList
    rw [hl]
  · rw [rowsOf_events]
    exact sortByTime_perm _
  · rw [rowsOf_events]
    exact (sortByTime_sorted _).imp (fun {a b} h => timeNotAfter_iff_not_lt a b h)
  · rw [rowsOf_events]
    exact (sortByTime_sorted _).imp (fun {a b} h => timeNotAfter_missing a b h)

/-- Witness of C7: A at 10:00 stored before B at 09:00 and C without a time is shown as
C, B, A, and the entry is left as it was. -/
theorem renderEventList_sorted_witness :
    ∃ rows, renderEventList
        (saveEvents [("2025-01-05", [⟨"A", some "10:00", "", "t1"⟩,
          ⟨"B", some "09:00", "", "t2"⟩, ⟨"C", none, "", "t3"⟩])])
        "2025-01-05"
        = some (rows,
            saveEvents [("2025-01-05", [⟨"A", some "10:00", "", "t1"⟩,
              ⟨"B", some "09:00", "", "t2"⟩, ⟨"C", none, "", "t3"⟩])])
      ∧ rows.map EventRow.event
          = [⟨"C", none, "", "t3"⟩, ⟨"B", some "09:00", "", "t2"⟩,
              ⟨"A", some "10:00", "", "t1"⟩]
      ∧ (rows.map EventRow.event).Pairwise
          (fun a b => ¬ (b.time.getD "" < a.time.getD "")) := by
  obtain ⟨rows, h1, _, h3, _⟩ := renderEventList_sorted
    (saveEvents [("2025-01-05", [⟨"A", some "10:00", "", "t1"⟩,
      ⟨"B", some "09:00", "", "t2"⟩, ⟨"C", none, "", "t3"⟩])])
    [("2025-01-05", [⟨"A", some "10:00", "", "t1"⟩, ⟨"B", some "09:00", "", "t2"⟩,
      ⟨"C", none, "", "t3"⟩])]
    "2025-01-05" rfl
  refine ⟨rows, h1, ?_, h3⟩
  have hc : renderEventList
      (saveEvents [("2025-01-05", [⟨"A", some "10:00", "", "t1"⟩,
        ⟨"B", some "09:00", "", "t2"⟩, ⟨"C", none, "", "t3"⟩])])
      "2025-01-05"
      = some (rowsOf [⟨"C", none, "", "t3"⟩, ⟨"B", some "09:00", "", "t2"⟩,
            ⟨"A", some "10:00", "", "t1"⟩],
          saveEvents [("2025-01-05", [⟨"A", some "10:00", "", "t1"⟩,
            ⟨"B", some "09:00", "", "t2"⟩, ⟨"C", none, "", "t3"⟩])]) := by
    decide
  rw [hc] at h1
  simp only [Option.some.injEq, Prod.mk.injEq, and_true] at h1
  rw [← h1]
  decide

/-- C8: when the stored text is `null`, `loadEvents` returns `null`, which is not a
mapping, and `renderEventList` then throws; the same holds for a number, a string and an
array, which `loadEvents` returns as they are. -/
theorem loadEvents_null_not_mapping :
    loadEvents (.parsed .null) = .null
      ∧ (loadEvents (.parsed .null)).isMapping = false
      ∧ renderEventList (.parsed .null) "2025-01-05" = none
      ∧ (loadEvents (.parsed (.number 5))).isMapping = false
      ∧ (loadEvents (.parsed (.string "x"))).isMapping = false
      ∧ (loadEvents (.parsed (.array 0))).isMapping = false := by
  decide

/-- C9: with A at 10:00 stored before B at 09:00, the event list shows B first, with the
index 0 on its Delete button; `deleteEvent` with that index removes A and keeps B. -/
theorem deleteEvent_display_index_mismatch :
    (renderEventList
        (saveEvents [("2025-01-05", [⟨"A", some "10:00", "", "t1"⟩, ⟨"B", some "09:00", "", "t2"⟩])])
        "2025-01-05").map (fun r => r.1.head?)
      = some (some ⟨⟨"B", some "09:00", "", "t2"⟩, 0⟩)
    ∧ deleteEvent
        (saveEvents [("2025-01-05", [⟨"A", some "10:00", "", "t1"⟩, ⟨"B", some "09:00", "", "t2"⟩])])
        "2025-01-05" 0
      = some (saveEvents [("2025-01-05", [⟨"B", some "09:00", "", "t2"⟩])]) := by
  decide

/-- C10: started on 31 January 2025, after one click on next (February 2025 in view, panel
hidden, no date selected) the toggle handler sets selectedDate to "2025-02-31", which is
not today's key "2025-01-31" and is no day of February 2025, a month of 28 days. -/
theorem toggleEventsClick_not_today :
    (toggleEventsClick ⟨2025, 0, 31⟩ (nextBtnClick (initialView ⟨2025, 0, 31⟩ true))).selectedDate
      = some "2025-02-31"
    ∧ todayKey ⟨2025, 0, 31⟩ = "2025-01-31"
    ∧ monthLength 2025 1 = 28 := by
  decide

end Calendar
